import Mathlib

/-!
Verification of the refcheck concurrent file-integrity checker.

The development shallowly embeds the Go sources:
  * `internal/validator/validator.go` — `Result`, `CorruptedFile`,
    `ValidateFile`, `isValidSha256`, `ProcessFolder`;
  * `main.go` / the cobra entry point — `collectExcludePatterns`,
    `runChecker`, the static template table.

Conventions of the embedding:
  * File contents are byte lists (`List Nat`, each entry < 256 in intended
    use).  The filesystem is a function `read : String → Option (List Nat)`;
    `none` models `os.Open` or `io.Copy` failing for that path (the two Go
    failure points behave identically: print the error and return).
  * The SHA-256 digest function of Go's `crypto/sha256` standard library is
    an abstract parameter `h : List Nat → List Nat` (the repository does not
    implement SHA-256; it only compares its hex encoding against names).
    `hexEncode` embeds `hex.EncodeToString` concretely.
  * `filepath.Walk` over one root is abstracted by the pair
    `(files, walkErr) : List String × Option String`: the regular-file paths
    the walk hands to `fileChan` in discovery order, and an optional error
    with which the walk callback aborts afterwards (`filepath.Walk` stops at
    the first error returned by the callback).
  * Worker goroutines are sequentialized: the drained queue is processed
    file by file in `processPaths`.  The Go code shares one `*Result`
    between all workers with no mutex; that unsynchronized mutation is
    modelled separately by the race-interleaving model `raceRun` below.
-/

/-- Prefix test on character lists: `prefixEq n h` is true when `n` is an
initial segment of `h`. -/
def prefixEq : List Char → List Char → Bool
  | [], _ => true
  | _ :: _, [] => false
  | a :: as, b :: bs => a == b && prefixEq as bs

/-- Substring test on character lists: `containsSub n h` is true when `n`
occurs contiguously inside `h` (the empty needle occurs in every haystack). -/
def containsSub (n : List Char) : List Char → Bool
  | [] => prefixEq n []
  | c :: cs => prefixEq n (c :: cs) || containsSub n cs

/-- Embeds Go `path/filepath.Base` (Unix rules, as exercised by the tool):
empty path gives ".", trailing slashes are removed, an all-slash path gives
"/", otherwise the final path component is returned. -/
def baseName (path : String) : String :=
  if path = "" then "."
  else
    let trimmed := (path.data.reverse.dropWhile (fun c => c == '/')).reverse
    if trimmed = [] then "/"
    else String.mk (trimmed.reverse.takeWhile (fun c => ! (c == '/'))).reverse

/-- Character class `[a-f0-9]` of the validator's regular expression. -/
def isHexLowerChar (c : Char) : Bool :=
  decide (('a' ≤ c ∧ c ≤ 'f') ∨ ('0' ≤ c ∧ c ≤ '9'))

/-- Embeds `regexp.MustCompile("^[a-f0-9]+$").MatchString s`: the anchored
pattern matches exactly the nonempty strings made only of lowercase hex
digits. -/
def matchesHexRegex (s : String) : Bool :=
  !s.isEmpty && s.data.all isHexLowerChar

/-- Embeds `isValidSha256` of `internal/validator/validator.go`: length must
be exactly 64, then the string must match `^[a-f0-9]+$`. -/
def isValidSha256 (hash : String) : Bool :=
  if hash.length ≠ 64 then false
  else matchesHexRegex hash

/-- Lowercase hex digit of a nibble, as produced by Go `encoding/hex`. -/
def hexDigit (n : Nat) : Char :=
  if n < 10 then Char.ofNat (48 + n) else Char.ofNat (87 + n)

/-- Embeds `hex.EncodeToString`: each byte becomes its high nibble's digit
followed by its low nibble's digit, in lowercase. -/
def hexEncode (bs : List Nat) : String :=
  String.mk (bs.flatMap (fun b => [hexDigit (b / 16 % 16), hexDigit (b % 16)]))

/-- Embeds `validator.CorruptedFile`: fields `file_path`, `actual_hash`. -/
structure CorruptedFile where
  filePath : String
  actualHash : String
deriving DecidableEq

/-- Embeds `validator.Result`: the per-root report. -/
structure Result where
  folderPath : String
  totalFiles : Nat
  intactFiles : Nat
  corruptedFiles : Nat
  corruptedFileList : List CorruptedFile
  invalidFiles : Nat
  invalidFileList : List String
deriving DecidableEq

/-- The report `&Result{FolderPath: folderPath}` created at the start of
`ProcessFolder`: every counter zero, both lists empty. -/
def emptyReport (folderPath : String) : Result :=
  { folderPath := folderPath
    totalFiles := 0
    intactFiles := 0
    corruptedFiles := 0
    corruptedFileList := []
    invalidFiles := 0
    invalidFileList := [] }

/-- Embeds `validator.ValidateFile`.  `h` is the SHA-256 digest function,
`read` the filesystem.  Mirrors the Go control flow: `TotalFiles` is
incremented first; an invalid base name books the file as invalid without
touching the filesystem; an open/read failure (`read filePath = none`)
returns after logging, leaving every classification counter alone; otherwise
the hex digest of the contents is compared with the base name. -/
def ValidateFile (h : List Nat → List Nat) (read : String → Option (List Nat))
    (filePath : String) (result : Result) : Result :=
  let expectedHash := baseName filePath
  let result := { result with totalFiles := result.totalFiles + 1 }
  if ! isValidSha256 expectedHash then
    { result with
        invalidFiles := result.invalidFiles + 1
        invalidFileList := result.invalidFileList ++ [filePath] }
  else
    match read filePath with
    | none => result
    | some content =>
      let actualHash := hexEncode (h content)
      if expectedHash = actualHash then
        { result with intactFiles := result.intactFiles + 1 }
      else
        { result with
            corruptedFiles := result.corruptedFiles + 1
            corruptedFileList :=
              result.corruptedFileList ++ [⟨filePath, actualHash⟩] }

/-- Embeds the static template table (`template.Templates` /
`templates` in `main.go`): a Go map lookup, returning the zero value (no
exclusion fragments) for unknown names. -/
def Templates (name : String) : List String :=
  if name = "restic" then ["config"]
  else if name = "darwin" then [".DS_Store"]
  else []

/-- Embeds `collectExcludePatterns`: the explicitly supplied patterns
followed by every fragment of every named template, in order. -/
def collectExcludePatterns (exclude : List String) (templateNames : List String) :
    List String :=
  exclude ++ templateNames.flatMap Templates

/-- The pattern string `"(" + strings.Join(excludePatterns, ")|(") + ")"`
that `collectExcludePatterns` hands to `regexp.MustCompile`. -/
def combinedPattern (frags : List String) : String :=
  "(" ++ String.intercalate ")|(" frags ++ ")"

/-- Semantics of `regexp.MustCompile(combinedPattern frags).MatchString path`
for literal fragments.  Go's `MatchString` is an unanchored substring search,
so for a nonempty fragment list the alternation matches iff some fragment
occurs inside the path.  For `frags = []` the built pattern is literally
`"()"`, a group around the empty regex; the empty regex matches the empty
substring at position 0 of every string, so `MatchString` returns true on
every path. -/
def reMatch (frags : List String) (path : String) : Bool :=
  if frags.isEmpty then true
  else frags.any (fun f => containsSub f.data path.data)

/-- Sequentialized processing of the drained work queue: each worker body is
`if !exclude.MatchString(filePath) { ValidateFile(filePath, result) }`; the
files sent on `fileChan` are consumed one by one.  (In the Go code the
workers mutate the shared `*Result` with no lock; the per-file updates are
modelled as atomic here, and the unsynchronized counter updates are analysed
separately with `raceRun`.) -/
def processPaths (exclude : String → Bool) (h : List Nat → List Nat)
    (read : String → Option (List Nat)) (paths : List String) (result : Result) :
    Result :=
  match paths with
  | [] => result
  | p :: rest =>
    processPaths exclude h read rest
      (if exclude p then result else ValidateFile h read p result)

/-- Embeds `validator.ProcessFolder`.  `walk` is the outcome of
`filepath.Walk folderPath`: the file paths handed to `fileChan` in order,
and an optional error the walk ends with.  The value `none` of the outer
`Option` marks an execution that never returns: with a non-positive
`numWorkers` the loop `for i := 0; i < numWorkers; i++` starts no worker, so
the first send on the unbuffered `fileChan` blocks forever whenever the walk
discovers at least one file (the file is sent before any exclusion check,
which lives in the workers).  With no file to send, the walk finishes, the
channel is closed, `wg.Wait()` returns at once and the function returns the
walk error or the empty report.  With at least one worker every queued file
is consumed; a walk error discards the accumulated report and is returned. -/
def ProcessFolder (numWorkers : Int) (exclude : String → Bool)
    (h : List Nat → List Nat) (read : String → Option (List Nat))
    (folderPath : String) (walk : List String × Option String) :
    Option (Except String Result) :=
  if numWorkers ≤ 0 then
    match walk.1, walk.2 with
    | [], some e => some (.error e)
    | [], none => some (.ok (emptyReport folderPath))
    | _ :: _, _ => none
  else
    match walk.2 with
    | some e => some (.error e)
    | none => some (.ok (processPaths exclude h read walk.1 (emptyReport folderPath)))

/-- Embeds the loop of `runChecker`: `validator.ProcessFolder` is invoked
once per folder path, in the order the caller supplied them; the first error
is returned at once (the reports collected so far are dropped, nothing is
printed); on full success the reports are kept one per root in that order.
`walks` gives each root's `filepath.Walk` outcome.  The outer `Option`
propagates a `ProcessFolder` call that never returns. -/
def runChecker (numWorkers : Int) (exclude : String → Bool)
    (h : List Nat → List Nat) (read : String → Option (List Nat))
    (walks : String → List String × Option String) :
    List String → Option (Except String (List Result))
  | [] => some (.ok [])
  | root :: rest =>
    match ProcessFolder numWorkers exclude h read root (walks root) with
    | none => none
    | some (.error e) => some (.error e)
    | some (.ok r) =>
      match runChecker numWorkers exclude h read walks rest with
      | none => none
      | some (.error e) => some (.error e)
      | some (.ok rs) => some (.ok (r :: rs))

/-- Number of queued files that reach the digest step and then fail to open
or read: not excluded, base name a valid digest, `read` fails. -/
def ioSkips (exclude : String → Bool) (read : String → Option (List Nat))
    (paths : List String) : Nat :=
  (paths.filter (fun p =>
    !exclude p && isValidSha256 (baseName p) && (read p).isNone)).length

/-- Sum of the three classification counters of a report. -/
def sumBuckets (r : Result) : Nat :=
  r.intactFiles + r.corruptedFiles + r.invalidFiles

/-- Number of queued files that are not excluded. -/
def countKept (exclude : String → Bool) (paths : List String) : Nat :=
  (paths.filter (fun p => !exclude p)).length

/-- An access of one worker to the shared `TotalFiles` counter in the race
model of `result.TotalFiles++`: Go compiles the unsynchronized increment
into a load of the shared int into a register followed by a store of the
incremented register. -/
inductive RaceAct where
  | load (w : Nat)
  | store (w : Nat)
deriving DecidableEq

/-- Shared counter plus one register per worker (`regs.getD w 0`). -/
structure RaceState where
  shared : Nat
  regs : List Nat
deriving DecidableEq

/-- Effect of one access: a load copies the shared counter into the worker's
register, a store writes the register plus one back. -/
def raceStep (s : RaceState) : RaceAct → RaceState
  | .load w => { s with regs := s.regs.set w s.shared }
  | .store w => { s with shared := s.regs.getD w 0 + 1 }

/-- Run a schedule of accesses from a state. -/
def raceRun (acts : List RaceAct) (s : RaceState) : RaceState :=
  acts.foldl raceStep s

/-- The accesses one execution of `result.TotalFiles++` by worker `w`
performs, in program order. -/
def workerProg (w : Nat) : List RaceAct :=
  [.load w, .store w]

/-- `isInterleave xs ys zs` holds when `zs` is an interleaving of `xs` and
`ys`, each kept in its own order — i.e. `zs` is a schedule the Go runtime
may choose for two concurrent workers with program orders `xs` and `ys`. -/
def isInterleave : List RaceAct → List RaceAct → List RaceAct → Bool
  | [], [], [] => true
  | [], [], _ :: _ => false
  | [], y :: ys, z :: zs => y == z && isInterleave [] ys zs
  | x :: xs, [], z :: zs => x == z && isInterleave xs [] zs
  | x :: xs, y :: ys, z :: zs =>
    (x == z && isInterleave xs (y :: ys) zs)
      || (y == z && isInterleave (x :: xs) ys zs)
  | _, _, [] => false

/-- A digest function for concrete runs: every content hashes to the
32-byte string of `0xaa` bytes. -/
def hashAA : List Nat → List Nat := fun _ => List.replicate 32 170

/-- A filesystem on which every open fails. -/
def readFail : String → Option (List Nat) := fun _ => none

/-- A filesystem on which every file reads as the single byte `0x78`. -/
def readX : String → Option (List Nat) := fun _ => some [120]

/-- A 64-character lowercase-hex file name. -/
def name64a : String :=
  "aaaaaaaaaaaaaaaaaaaaaaaaaaaaaaaaaaaaaaaaaaaaaaaaaaaaaaaaaaaaaaaa"

/-- The exclusion predicate that excludes nothing. -/
def excludeNone : String → Bool := fun _ => false

/-- A multi-root filesystem for concrete runs: every root walks to an empty
file list, except the root "bad" whose walk fails with "boom". -/
def walks0 : String → List String × Option String :=
  fun root => if root = "bad" then ([], some "boom") else ([], none)


theorem validateFile_totalFiles (h : List Nat → List Nat)
    (rd : String → Option (List Nat)) (p : String) (r : Result) :
    (ValidateFile h rd p r).totalFiles = r.totalFiles + 1 := by
  unfold ValidateFile
  by_cases hv : isValidSha256 (baseName p)
  · simp only [hv]
    cases rd p with
    | none => simp
    | some content =>
      by_cases he : baseName p = hexEncode (h content) <;> simp [he]
  · simp [hv]

theorem sumBuckets_validateFile (h : List Nat → List Nat)
    (rd : String → Option (List Nat)) (p : String) (r : Result) :
    sumBuckets (ValidateFile h rd p r)
      = sumBuckets r
        + (if isValidSha256 (baseName p) && (rd p).isNone then 0 else 1) := by
  unfold ValidateFile sumBuckets
  by_cases hv : isValidSha256 (baseName p)
  · simp only [hv]
    cases hrd : rd p with
    | none => simp
    | some content =>
      by_cases he : baseName p = hexEncode (h content) <;> simp [he] <;> omega
  · simp [hv]
    omega

theorem validateFile_folderPath_eq (h : List Nat → List Nat)
    (rd : String → Option (List Nat)) (p : String) (r : Result) :
    (ValidateFile h rd p r).folderPath = r.folderPath := by
  unfold ValidateFile
  by_cases hv : isValidSha256 (baseName p)
  · simp only [hv]
    cases rd p with
    | none => simp
    | some content =>
      by_cases he : baseName p = hexEncode (h content) <;> simp [he]
  · simp [hv]

theorem processPaths_cons (ex : String → Bool) (h : List Nat → List Nat)
    (rd : String → Option (List Nat)) (p : String) (rest : List String)
    (r : Result) :
    processPaths ex h rd (p :: rest) r
      = processPaths ex h rd rest (if ex p then r else ValidateFile h rd p r) :=
  rfl

theorem countKept_cons (ex : String → Bool) (p : String) (ps : List String) :
    countKept ex (p :: ps) = (if ex p then 0 else 1) + countKept ex ps := by
  by_cases hx : ex p
  · simp [countKept, List.filter_cons, hx]
  · simp [countKept, List.filter_cons, hx]
    omega

theorem ioSkips_cons (ex : String → Bool) (rd : String → Option (List Nat))
    (p : String) (ps : List String) :
    ioSkips ex rd (p :: ps)
      = (if !ex p && isValidSha256 (baseName p) && (rd p).isNone then 1 else 0)
        + ioSkips ex rd ps := by
  by_cases hc : (!ex p && isValidSha256 (baseName p) && (rd p).isNone) = true
  · simp [ioSkips, List.filter_cons, hc]
    omega
  · simp [ioSkips, List.filter_cons, hc]

theorem processPaths_totalFiles (ex : String → Bool) (h : List Nat → List Nat)
    (rd : String → Option (List Nat)) (ps : List String) (r : Result) :
    (processPaths ex h rd ps r).totalFiles = r.totalFiles + countKept ex ps := by
  induction ps generalizing r with
  | nil => simp [processPaths, countKept]
  | cons p rest ih =>
    rw [processPaths_cons, countKept_cons]
    by_cases hx : ex p
    · rw [if_pos hx, if_pos hx, ih]
      omega
    · rw [if_neg hx, if_neg hx, ih, validateFile_totalFiles]
      omega

theorem processPaths_sumBuckets (ex : String → Bool) (h : List Nat → List Nat)
    (rd : String → Option (List Nat)) (ps : List String) (r : Result) :
    sumBuckets (processPaths ex h rd ps r) + ioSkips ex rd ps
      = sumBuckets r + countKept ex ps := by
  induction ps generalizing r with
  | nil => simp [processPaths, countKept, ioSkips]
  | cons p rest ih =>
    rw [processPaths_cons, countKept_cons, ioSkips_cons]
    by_cases hx : ex p
    · have h1 := ih r
      simp [hx]
      omega
    · have hxf : ex p = false := by simpa using hx
      have h1 := ih (ValidateFile h rd p r)
      have h2 := sumBuckets_validateFile h rd p r
      cases hs : (isValidSha256 (baseName p) && (rd p).isNone) <;>
        simp [hs, hxf] at h2 ⊢ <;> omega

theorem processPaths_folderPath (ex : String → Bool) (h : List Nat → List Nat)
    (rd : String → Option (List Nat)) (ps : List String) (r : Result) :
    (processPaths ex h rd ps r).folderPath = r.folderPath := by
  induction ps generalizing r with
  | nil => rfl
  | cons p rest ih =>
    rw [processPaths_cons]
    by_cases hx : ex p
    · rw [if_pos hx]
      exact ih r
    · rw [if_neg hx, ih, validateFile_folderPath_eq]

theorem processPaths_filter_eq (ex : String → Bool) (h : List Nat → List Nat)
    (rd : String → Option (List Nat)) (ps : List String) (r : Result) :
    processPaths ex h rd ps r
      = processPaths ex h rd (ps.filter (fun p => !ex p)) r := by
  induction ps generalizing r with
  | nil => rfl
  | cons p rest ih =>
    rw [processPaths_cons]
    by_cases hx : ex p
    · rw [if_pos hx, ih r]
      congr 1
      simp [List.filter_cons, hx]
    · rw [if_neg hx, ih (ValidateFile h rd p r)]
      have hf : List.filter (fun q => !ex q) (p :: rest)
          = p :: List.filter (fun q => !ex q) rest := by
        simp [List.filter_cons, hx]
      rw [hf, processPaths_cons, if_neg hx]

theorem processFolder_pos_ok (nw : Int) (ex : String → Bool)
    (h : List Nat → List Nat) (rd : String → Option (List Nat))
    (root : String) (files : List String) (hw : 1 ≤ nw) :
    ProcessFolder nw ex h rd root (files, none)
      = some (.ok (processPaths ex h rd files (emptyReport root))) := by
  unfold ProcessFolder
  rw [if_neg (by omega)]

theorem processFolder_pos_error (nw : Int) (ex : String → Bool)
    (h : List Nat → List Nat) (rd : String → Option (List Nat))
    (root : String) (files : List String) (e : String) (hw : 1 ≤ nw) :
    ProcessFolder nw ex h rd root (files, some e) = some (.error e) := by
  unfold ProcessFolder
  rw [if_neg (by omega)]

theorem prefixEq_self_append (n b : List Char) : prefixEq n (n ++ b) = true := by
  induction n with
  | nil => rfl
  | cons c cs ih => simp [prefixEq, ih]

theorem containsSub_base (n b : List Char) : containsSub n (n ++ b) = true := by
  cases n with
  | nil =>
    cases b with
    | nil => rfl
    | cons c cs => simp [containsSub, prefixEq]
  | cons c cs =>
    show (prefixEq (c :: cs) ((c :: cs) ++ b) || containsSub (c :: cs) (cs ++ b))
        = true
    rw [prefixEq_self_append]
    rfl

theorem containsSub_embed (n a b : List Char) :
    containsSub n (a ++ (n ++ b)) = true := by
  induction a with
  | nil => simpa using containsSub_base n b
  | cons c cs ih => simp [containsSub, ih]

theorem isValidSha256_iff (s : String) :
    isValidSha256 s = true ↔
      s.length = 64 ∧
        ∀ c ∈ s.data, ('a' ≤ c ∧ c ≤ 'f') ∨ ('0' ≤ c ∧ c ≤ '9') := by
  unfold isValidSha256 matchesHexRegex isHexLowerChar
  by_cases h64 : s.length = 64
  · have hne : s.isEmpty = false := by
      rw [Bool.eq_false_iff]
      intro hemp
      rw [String.isEmpty_iff] at hemp
      rw [hemp] at h64
      simp at h64
    rw [if_neg (by simp [h64])]
    simp [hne, h64, List.all_eq_true]
  · rw [if_pos (by simp [h64])]
    simp [h64]

/-- C1 (amended): for every Report returned by `ProcessFolder` with a
positive worker count and a successful walk, the three classification
counters together with the number of files skipped by a per-file I/O error
partition `total_files` exactly:
`intact_files + corrupted_files + invalid_files + ioSkips = total_files`.
(The original claim, without the I/O-skip term, fails: a file whose read
fails is counted in `total_files` but in none of the three buckets.) -/
theorem processFolder_bucket_partition (nw : Int) (ex : String → Bool)
    (h : List Nat → List Nat) (rd : String → Option (List Nat))
    (root : String) (files : List String) (rep : Result) (hw : 1 ≤ nw)
    (hrep : ProcessFolder nw ex h rd root (files, none) = some (.ok rep)) :
    rep.intactFiles + rep.corruptedFiles + rep.invalidFiles
        + ioSkips ex rd files
      = rep.totalFiles := by
  rw [processFolder_pos_ok nw ex h rd root files hw] at hrep
  injection hrep with h1
  injection h1 with h2
  have hA := processPaths_sumBuckets ex h rd files (emptyReport root)
  have hB := processPaths_totalFiles ex h rd files (emptyReport root)
  rw [← h2]
  simp only [sumBuckets, emptyReport] at hA hB ⊢
  omega

theorem processFolder_bucket_partition_witness :
    (1 : Int) ≤ 1
    ∧ ProcessFolder 1 excludeNone hashAA readFail "root"
        (["root/" ++ name64a], none)
      = some (.ok ⟨"root", 1, 0, 0, [], 0, []⟩)
    ∧ 0 + 0 + 0 + ioSkips excludeNone readFail ["root/" ++ name64a] = 1 :=
  ⟨by decide, rfl,
    processFolder_bucket_partition 1 excludeNone hashAA readFail "root"
      ["root/" ++ name64a] ⟨"root", 1, 0, 0, [], 0, []⟩ (by decide) rfl⟩

/-- C1 counterexample: a run over one file whose base name is a valid digest
but whose read fails returns a Report with `total_files = 1` and all three
classification counters zero, so `intact + corrupted + invalid ≠ total`. -/
theorem processFolder_partition_fails_on_read_error :
    ProcessFolder 1 excludeNone hashAA readFail "root"
        (["root/" ++ name64a], none)
      = some (.ok ⟨"root", 1, 0, 0, [], 0, []⟩)
    ∧ 0 + 0 + 0 ≠ 1 :=
  ⟨rfl, by decide⟩

/-- C5 (amended): when opening or reading an individual file fails during
verification, the file is skipped: it is counted in none of `intact_files`,
`corrupted_files`, `invalid_files` and appears in no list, but it still
increments `total_files` (the counter is bumped before the open); processing
continues with the remaining queued files and the file is not retried.
(The original claim, which excludes the failing file from `total_files`,
fails: see the counterexample.) -/
theorem validateFile_ioerror_skip_continue (ex : String → Bool)
    (h : List Nat → List Nat) (rd : String → Option (List Nat))
    (p : String) (r : Result) (rest : List String)
    (hv : isValidSha256 (baseName p) = true) (hr : rd p = none)
    (hx : ex p = false) :
    ValidateFile h rd p r = { r with totalFiles := r.totalFiles + 1 }
    ∧ processPaths ex h rd (p :: rest) r
        = processPaths ex h rd rest { r with totalFiles := r.totalFiles + 1 } := by
  have h1 : ValidateFile h rd p r = { r with totalFiles := r.totalFiles + 1 } := by
    unfold ValidateFile
    simp [hv, hr]
  refine ⟨h1, ?_⟩
  rw [processPaths_cons, if_neg (by simp [hx]), h1]

theorem validateFile_ioerror_skip_continue_witness :
    ValidateFile hashAA readFail ("root/" ++ name64a) (emptyReport "root")
      = { emptyReport "root" with totalFiles := 1 }
    ∧ processPaths excludeNone hashAA readFail
        ["root/" ++ name64a, "root/x"] (emptyReport "root")
      = processPaths excludeNone hashAA readFail ["root/x"]
          { emptyReport "root" with totalFiles := 1 } :=
  validateFile_ioerror_skip_continue excludeNone hashAA readFail
    ("root/" ++ name64a) (emptyReport "root") ["root/x"] (by decide) rfl rfl

/-- C5 counterexample: a file with a valid digest name whose read fails is
counted in `total_files` (the claim says it must be excluded from it). -/
theorem ioerror_file_counted_in_total :
    (ValidateFile hashAA readFail ("root/" ++ name64a)
        (emptyReport "root")).totalFiles = 1
    ∧ (1 : Nat) ≠ 0 :=
  ⟨by decide, by decide⟩

/-- C8: `ProcessFolder` performs no validation of the worker count.  With a
non-positive count the worker loop starts no goroutine; if the walk
discovers at least one file, the send on the unbuffered channel blocks
forever and the call never returns (modelled as `none`) — no configuration
error is surfaced; with no file discovered the call returns normally (the
walk error, or an all-zero report), so the count is neither rejected nor
clamped. -/
theorem processFolder_no_worker_validation :
    ProcessFolder 0 excludeNone hashAA readX "root"
        (["root/" ++ name64a], none) = none
    ∧ ProcessFolder (-1) excludeNone hashAA readX "root"
        (["root/" ++ name64a], none) = none
    ∧ ProcessFolder 0 excludeNone hashAA readX "root" ([], none)
        = some (.ok (emptyReport "root"))
    ∧ ProcessFolder 0 excludeNone hashAA readX "root" ([], some "boom")
        = some (.error "boom") :=
  ⟨rfl, rfl, rfl, rfl⟩

/-- C9: the workers update `result.TotalFiles++` on the shared Report with
no synchronization, so the counts are not determined by the file set alone.
Both schedules below are interleavings of the program orders of two workers
each performing one unsynchronized increment (load then store): the
sequential schedule — the only one available with one worker — ends with the
counter at 2, while the racing schedule available with two or more workers
loses an update and ends at 1. -/
theorem shared_counter_race_lost_update :
    isInterleave (workerProg 0) (workerProg 1)
      [RaceAct.load 0, RaceAct.load 1, RaceAct.store 0, RaceAct.store 1] = true
    ∧ (raceRun [RaceAct.load 0, RaceAct.load 1, RaceAct.store 0, RaceAct.store 1]
        ⟨0, [0, 0]⟩).shared = 1
    ∧ isInterleave (workerProg 0) (workerProg 1)
        (workerProg 0 ++ workerProg 1) = true
    ∧ (raceRun (workerProg 0 ++ workerProg 1) ⟨0, [0, 0]⟩).shared = 2 := by
  decide

/-- C10: `ValidateFile` leaves the Report's `folder_path` field unchanged on
every input path, every filesystem and every digest function — only the
counters and the two lists are touched. -/
theorem validateFile_preserves_folderPath (h : List Nat → List Nat)
    (rd : String → Option (List Nat)) (p : String) (r : Result) :
    (ValidateFile h rd p r).folderPath = r.folderPath :=
  validateFile_folderPath_eq h rd p r

/-- C2: with zero explicit exclusion patterns and zero template names,
`collectExcludePatterns` builds the pattern `"()"`, which matches the empty
substring of every path, so every discovered file is excluded and none is
verified or counted — the run over a folder with one intact file returns the
all-zero report.  (The claim, and the spec, require the filter to match no
path in this case.) -/
theorem emptyExclusion_matches_everything :
    collectExcludePatterns [] [] = []
    ∧ combinedPattern (collectExcludePatterns [] []) = "()"
    ∧ reMatch (collectExcludePatterns [] []) ("root/" ++ name64a) = true
    ∧ ProcessFolder 4 (reMatch (collectExcludePatterns [] [])) hashAA readX
        "root" (["root/" ++ name64a], none)
      = some (.ok (emptyReport "root")) :=
  ⟨rfl, rfl, by decide, rfl⟩

/-- C3: for a file whose base name is a valid 64-character lowercase-hex
digest and whose contents are read successfully, the file is classified
intact exactly when the lowercase hex encoding of the digest of its contents
equals the base name (a case-sensitive string comparison); otherwise it is
classified corrupted and the recorded `actual_hash` is the hex digest of the
file's current contents, not the name. -/
theorem validateFile_digest_decides_outcome (h : List Nat → List Nat)
    (rd : String → Option (List Nat)) (p : String) (r : Result)
    (content : List Nat)
    (hv : isValidSha256 (baseName p) = true) (hr : rd p = some content) :
    (baseName p = hexEncode (h content) →
      ValidateFile h rd p r
        = { r with
            totalFiles := r.totalFiles + 1
            intactFiles := r.intactFiles + 1 })
    ∧ (baseName p ≠ hexEncode (h content) →
      ValidateFile h rd p r
        = { r with
            totalFiles := r.totalFiles + 1
            corruptedFiles := r.corruptedFiles + 1
            corruptedFileList :=
              r.corruptedFileList ++ [⟨p, hexEncode (h content)⟩] }) := by
  have hbody : ValidateFile h rd p r
      = if baseName p = hexEncode (h content) then
          { r with
            totalFiles := r.totalFiles + 1
            intactFiles := r.intactFiles + 1 }
        else
          { r with
            totalFiles := r.totalFiles + 1
            corruptedFiles := r.corruptedFiles + 1
            corruptedFileList :=
              r.corruptedFileList ++ [⟨p, hexEncode (h content)⟩] } := by
    unfold ValidateFile
    simp [hv, hr]
  constructor <;> intro he
  · rw [hbody, if_pos he]
  · rw [hbody, if_neg he]

theorem validateFile_digest_decides_outcome_witness :
    ValidateFile hashAA readX ("root/" ++ name64a) (emptyReport "root")
      = { emptyReport "root" with totalFiles := 1, intactFiles := 1 } :=
  (validateFile_digest_decides_outcome hashAA readX ("root/" ++ name64a)
    (emptyReport "root") [120] (by decide) rfl).1 (by decide)

/-- C4: `ValidateFile` classifies a file as invalid-name exactly when its
base name is not a 64-character string of lowercase hexadecimal digits; in
that case the produced report is fully determined — `total_files` still goes
up by one, `invalid_files` goes up by one, the path is appended to
`invalid_file_list` — and the outcome is independent of the digest function
and of the filesystem (the file is never opened and no digest is computed),
while a valid name never touches the invalid counter or list. -/
theorem validateFile_invalid_name_classification (h : List Nat → List Nat)
    (rd : String → Option (List Nat)) (p : String) (r : Result) :
    (isValidSha256 (baseName p) = true ↔
      (baseName p).length = 64 ∧
        ∀ c ∈ (baseName p).data, ('a' ≤ c ∧ c ≤ 'f') ∨ ('0' ≤ c ∧ c ≤ '9'))
    ∧ (isValidSha256 (baseName p) = false →
        ValidateFile h rd p r
          = { r with
              totalFiles := r.totalFiles + 1
              invalidFiles := r.invalidFiles + 1
              invalidFileList := r.invalidFileList ++ [p] }
        ∧ ∀ (h' : List Nat → List Nat) (rd' : String → Option (List Nat)),
            ValidateFile h' rd' p r = ValidateFile h rd p r)
    ∧ (isValidSha256 (baseName p) = true →
        (ValidateFile h rd p r).invalidFiles = r.invalidFiles
        ∧ (ValidateFile h rd p r).invalidFileList = r.invalidFileList) := by
  refine ⟨isValidSha256_iff (baseName p), ?_, ?_⟩
  · intro hv
    have heq : ∀ (h' : List Nat → List Nat) (rd' : String → Option (List Nat)),
        ValidateFile h' rd' p r
          = { r with
              totalFiles := r.totalFiles + 1
              invalidFiles := r.invalidFiles + 1
              invalidFileList := r.invalidFileList ++ [p] } := by
      intro h' rd'
      unfold ValidateFile
      simp [hv]
    exact ⟨heq h rd, fun h' rd' => (heq h' rd').trans (heq h rd).symm⟩
  · intro hv
    unfold ValidateFile
    simp only [hv, Bool.not_true, Bool.false_eq_true, not_false_eq_true,
      if_neg, if_false]
    cases hrd : rd p with
    | none => exact ⟨rfl, rfl⟩
    | some content =>
      by_cases he : baseName p = hexEncode (h content) <;> simp [he]

theorem validateFile_invalid_name_classification_witness :
    isValidSha256 (baseName "root/not-a-hash") = false
    ∧ ValidateFile hashAA readX "root/not-a-hash" (emptyReport "root")
        = { emptyReport "root" with
            totalFiles := 1
            invalidFiles := 1
            invalidFileList := ["root/not-a-hash"] } :=
  ⟨by decide,
    ((validateFile_invalid_name_classification hashAA readX "root/not-a-hash"
      (emptyReport "root")).2.1 (by decide)).1⟩

/-- C6: a file whose full path matches an exclusion fragment is invisible to
the run: processing the queue is the same as processing the queue with every
matched path deleted, so the file is never handed to the digest verifier and
contributes to no counter and no list; and matching is a substring match
against the full path — a fragment occurring anywhere inside the path (any
directory component, not just the base name) excludes the file. -/
theorem excluded_files_never_processed (frags : List String)
    (h : List Nat → List Nat) (rd : String → Option (List Nat))
    (ps : List String) (r : Result) :
    processPaths (reMatch frags) h rd ps r
      = processPaths (reMatch frags) h rd
          (ps.filter (fun p => ! reMatch frags p)) r
    ∧ ∀ f ∈ frags, ∀ pre suf : String,
        reMatch frags (pre ++ f ++ suf) = true := by
  refine ⟨processPaths_filter_eq _ _ _ _ _, ?_⟩
  intro f hf pre suf
  unfold reMatch
  have hne : frags.isEmpty = false := by
    cases frags with
    | nil => cases hf
    | cons a as => rfl
  rw [hne]
  simp only [Bool.false_eq_true, if_false, List.any_eq_true]
  refine ⟨f, hf, ?_⟩
  have hdata : (pre ++ f ++ suf).data = pre.data ++ (f.data ++ suf.data) := by
    simp [String.data_append]
  rw [hdata]
  exact containsSub_embed f.data pre.data suf.data

theorem excluded_files_never_processed_witness :
    processPaths (reMatch ["config"]) hashAA readX
        ["root/config/x", "root/" ++ name64a] (emptyReport "root")
      = processPaths (reMatch ["config"]) hashAA readX
          (["root/config/x", "root/" ++ name64a].filter
            (fun p => ! reMatch ["config"] p)) (emptyReport "root")
    ∧ reMatch ["config"] ("root/" ++ "config" ++ "/x") = true :=
  ⟨(excluded_files_never_processed ["config"] hashAA readX
      ["root/config/x", "root/" ++ name64a] (emptyReport "root")).1,
    (excluded_files_never_processed ["config"] hashAA readX
      ["root/config/x", "root/" ++ name64a] (emptyReport "root")).2
      "config" (by decide) "root/" "/x"⟩

/-- C7: with a positive worker count, `runChecker` validates the requested
roots strictly in the caller-supplied order.  If every root's walk succeeds,
it returns one Report per root in that same order.  If some root's walk
fails (all earlier roots succeeding), that root's `ProcessFolder` returns
the walk error with no Report, the loop stops there, and the caller receives
only the error — the Reports accumulated for earlier roots and the roots not
yet attempted produce no partial result list. -/
theorem runChecker_ordered_failfast (nw : Int) (ex : String → Bool)
    (h : List Nat → List Nat) (rd : String → Option (List Nat))
    (walks : String → List String × Option String) (hw : 1 ≤ nw) :
    (∀ roots : List String, (∀ root ∈ roots, (walks root).2 = none) →
      runChecker nw ex h rd walks roots
        = some (.ok (roots.map (fun root =>
            processPaths ex h rd (walks root).1 (emptyReport root)))))
    ∧ (∀ (pre : List String) (root : String) (post : List String) (e : String),
        (∀ q ∈ pre, (walks q).2 = none) → (walks root).2 = some e →
        runChecker nw ex h rd walks (pre ++ root :: post) = some (.error e)) := by
  have hok : ∀ root : String, (walks root).2 = none →
      ProcessFolder nw ex h rd root (walks root)
        = some (.ok (processPaths ex h rd (walks root).1 (emptyReport root))) := by
    intro root hroot
    have hwr : walks root = ((walks root).1, none) := by
      rw [← hroot]
    rw [hwr]
    exact processFolder_pos_ok nw ex h rd root (walks root).1 hw
  have herr : ∀ (root : String) (e : String), (walks root).2 = some e →
      ProcessFolder nw ex h rd root (walks root) = some (.error e) := by
    intro root e hroot
    have hwr : walks root = ((walks root).1, some e) := by
      rw [← hroot]
    rw [hwr]
    exact processFolder_pos_error nw ex h rd root (walks root).1 e hw
  constructor
  · intro roots
    induction roots with
    | nil => intro _; rfl
    | cons root rest ih =>
      intro hall
      have hroot := hall root (List.mem_cons_self root rest)
      have hrest := fun q hq => hall q (List.mem_cons_of_mem root hq)
      simp only [runChecker, hok root hroot, ih hrest, List.map_cons]
  · intro pre
    induction pre with
    | nil =>
      intro root post e _ hroot
      simp only [List.nil_append, runChecker, herr root e hroot]
    | cons q pre' ih =>
      intro root post e hall hroot
      have hq := hall q (List.mem_cons_self q pre')
      have hpre := fun q' hq' => hall q' (List.mem_cons_of_mem q hq')
      have hih := ih root post e hpre hroot
      simp only [List.cons_append, runChecker, hok q hq]
      rw [show pre'.append (root :: post) = pre' ++ root :: post from rfl, hih]

theorem runChecker_ordered_failfast_witness :
    runChecker 4 excludeNone hashAA readX walks0 ["a", "b"]
      = some (.ok [emptyReport "a", emptyReport "b"])
    ∧ runChecker 4 excludeNone hashAA readX walks0 ["a", "bad", "c"]
      = some (.error "boom") :=
  ⟨((runChecker_ordered_failfast 4 excludeNone hashAA readX walks0
      (by decide)).1 ["a", "b"] (by decide)).trans rfl,
    (runChecker_ordered_failfast 4 excludeNone hashAA readX walks0
      (by decide)).2 ["a"] "bad" ["c"] "boom" (by decide) rfl⟩
